import Mathlib

/-!
Shallow embedding of the Sliding Window Protocol implementation in
`fc/swp.py`: the packet codec (`SWPPacket.to_bytes` / `SWPPacket.from_bytes`),
the sender state machine (`SWPSender`) and the receiver state machine
(`SWPReceiver`).

Machine integers are modelled as `Nat`/`Int` with explicit bounds (the wire
sequence-number field is packed with `struct.pack('!BI', ...)`, which accepts
exactly the range `[0, 4294967296)`); fallible operations return `Option`;
a Python exception that kills a worker thread (`KeyError` from an unguarded
`del`, `struct.error` from packing a negative sequence number) is modelled
as a `Bool` "crashed" flag that stops further processing, with all state
mutations performed before the raise kept, as in Python.
-/

/-- A byte string: a list of byte values. -/
abbrev Payload := List Nat

/-- Dictionary lookup (`k in d`, `d[k]`) for the sender/receiver buffers,
which are modelled as association lists. -/
def lookupKey (k : Nat) : List (Nat × Payload) → Option Payload
  | [] => none
  | (k', v) :: rest => if k' = k then some v else lookupKey k rest

/-- Dictionary deletion `del d[k]`: the entry for `k` is removed. -/
def eraseKey (k : Nat) : List (Nat × Payload) → List (Nat × Payload)
  | [] => []
  | (k', v) :: rest => if k' = k then eraseKey k rest else (k', v) :: eraseKey k rest

/-- Dictionary assignment `d[k] = v`. -/
def insertKey (k : Nat) (v : Payload) (l : List (Nat × Payload)) :
    List (Nat × Payload) :=
  (k, v) :: eraseKey k l

/-- `SWPType`: `DATA = ord('D') = 68`, `ACK = ord('A') = 65`. -/
inductive SWPType
  | DATA
  | ACK
deriving DecidableEq

/-- The numeric tag of a packet type (`self._type.value`). -/
def SWPType.value : SWPType → Nat
  | .DATA => 68
  | .ACK => 65

/-- `SWPType(tag)`: raises `ValueError` (here `none`) unless the tag byte is
68 (`'D'`) or 65 (`'A'`). -/
def SWPType.ofTag (t : Nat) : Option SWPType :=
  if t = 68 then some SWPType.DATA
  else if t = 65 then some SWPType.ACK
  else none

/-- `SWPPacket(type, seq_num, data)`.  The sequence number is an `Int`: the
constructor performs no validation, so the receiver can build a packet whose
sequence number is `-1`; only `to_bytes` enforces the 32-bit unsigned range. -/
structure SWPPacket where
  type : SWPType
  seq_num : Int
  data : Payload
deriving DecidableEq

/-- Big-endian 4-byte encoding of a sequence number (the `'!I'` field of
`struct.pack`). -/
def be4 (n : Nat) : List Nat :=
  [n / 16777216 % 256, n / 65536 % 256, n / 256 % 256, n % 256]

/-- `SWPPacket.to_bytes`: `struct.pack('!BI', type, seq_num) + data`.
`struct.pack` raises `struct.error` (here `none`) when the sequence number is
outside the unsigned 32-bit range `[0, 4294967296)`. -/
def SWPPacket.to_bytes (p : SWPPacket) : Option (List Nat) :=
  if 0 ≤ p.seq_num ∧ p.seq_num < 4294967296 then
    some (p.type.value :: be4 p.seq_num.toNat ++ p.data)
  else none

/-- `SWPPacket.from_bytes`: `struct.unpack('!BI', raw[:5])` raises
`struct.error` (here `none`) when fewer than 5 bytes are available;
`SWPType(header[0])` raises `ValueError` when the tag byte is unrecognised;
the bytes after the 5-byte header are the payload, and any 4-byte
sequence-number field decodes successfully. -/
def SWPPacket.from_bytes (raw : List Nat) : Option SWPPacket :=
  match raw with
  | t :: b0 :: b1 :: b2 :: b3 :: rest =>
    match SWPType.ofTag t with
    | some ty =>
      some ⟨ty, ((b0 * 16777216 + b1 * 65536 + b2 * 256 + b3 : Nat) : Int), rest⟩
    | none => none
  | _ => none

/-! ### Association-list lemmas -/

theorem eraseKey_sublist (k : Nat) (l : List (Nat × Payload)) :
    List.Sublist (eraseKey k l) l := by
  induction l with
  | nil => simp [eraseKey]
  | cons p rest ih =>
    obtain ⟨k', v⟩ := p
    simp only [eraseKey]
    split
    · exact ih.cons _
    · exact ih.cons₂ _

theorem mem_of_mem_eraseKey {p : Nat × Payload} {k : Nat}
    {l : List (Nat × Payload)} (h : p ∈ eraseKey k l) : p ∈ l :=
  (eraseKey_sublist k l).subset h

theorem eraseKey_length_le (k : Nat) (l : List (Nat × Payload)) :
    (eraseKey k l).length ≤ l.length :=
  (eraseKey_sublist k l).length_le

theorem lookupKey_mem {k : Nat} {v : Payload} :
    ∀ {l : List (Nat × Payload)}, lookupKey k l = some v → (k, v) ∈ l := by
  intro l
  induction l with
  | nil => intro h; simp [lookupKey] at h
  | cons p rest ih =>
    obtain ⟨k', v'⟩ := p
    intro h
    unfold lookupKey at h
    by_cases hk : k' = k
    · rw [if_pos hk] at h
      obtain rfl := Option.some.inj h
      subst hk
      exact List.mem_cons_self _ _
    · rw [if_neg hk] at h
      exact List.mem_cons_of_mem _ (ih h)

theorem lookupKey_some_pos {k : Nat} {v : Payload} {l : List (Nat × Payload)}
    (h : lookupKey k l = some v) : 0 < l.length := by
  cases l with
  | nil => simp [lookupKey] at h
  | cons p rest => simp

theorem eraseKey_length_lt {k : Nat} {v : Payload} :
    ∀ {l : List (Nat × Payload)}, lookupKey k l = some v →
      (eraseKey k l).length < l.length := by
  intro l
  induction l with
  | nil => intro h; simp [lookupKey] at h
  | cons p rest ih =>
    obtain ⟨k', v'⟩ := p
    intro h
    unfold lookupKey at h
    unfold eraseKey
    by_cases hk : k' = k
    · rw [if_pos hk]
      exact Nat.lt_succ_of_le (eraseKey_length_le k rest)
    · rw [if_neg hk] at h ⊢
      simpa using ih h

theorem eraseKey_of_not_mem {k : Nat} :
    ∀ {l : List (Nat × Payload)}, k ∉ l.map Prod.fst → eraseKey k l = l := by
  intro l
  induction l with
  | nil => intro _; rfl
  | cons p rest ih =>
    obtain ⟨k', v'⟩ := p
    intro h
    simp only [List.map_cons, List.mem_cons] at h
    push_neg at h
    unfold eraseKey
    rw [if_neg (fun he => h.1 he.symm), ih h.2]

theorem eraseKey_length_nodup {k : Nat} {v : Payload} :
    ∀ {l : List (Nat × Payload)}, (l.map Prod.fst).Nodup →
      lookupKey k l = some v → (eraseKey k l).length + 1 = l.length := by
  intro l
  induction l with
  | nil => intro _ h; simp [lookupKey] at h
  | cons p rest ih =>
    obtain ⟨k', v'⟩ := p
    intro hnd h
    simp only [List.map_cons, List.nodup_cons] at hnd
    unfold lookupKey at h
    unfold eraseKey
    by_cases hk : k' = k
    · rw [if_pos hk, eraseKey_of_not_mem (hk ▸ hnd.1)]
      simp
    · rw [if_neg hk] at h
      rw [if_neg hk]
      simp only [List.length_cons]
      rw [← ih hnd.2 h]

/-! ### Codec round trip -/

/-- Core round-trip fact for the codec: any packet whose sequence number the
wire format can carry is recovered exactly by `from_bytes ∘ to_bytes`. -/
theorem roundtrip_core (p : SWPPacket) (h0 : 0 ≤ p.seq_num)
    (h1 : p.seq_num < 4294967296) :
    (SWPPacket.to_bytes p).bind SWPPacket.from_bytes = some p := by
  obtain ⟨ty, seq, data⟩ := p
  simp only [SWPPacket.to_bytes] at *
  rw [if_pos ⟨h0, h1⟩]
  cases ty <;>
  · simp [SWPType.value, be4, SWPPacket.from_bytes, SWPType.ofTag]
    omega

/-- `to_bytes` succeeds, with the documented wire layout, whenever the
sequence number is in the unsigned 32-bit range. -/
theorem to_bytes_some {ty : SWPType} {seq : Int} {data : Payload}
    (h0 : 0 ≤ seq) (h1 : seq < 4294967296) :
    SWPPacket.to_bytes ⟨ty, seq, data⟩ =
      some (ty.value :: be4 seq.toNat ++ data) := by
  unfold SWPPacket.to_bytes
  rw [if_pos ⟨h0, h1⟩]

/-! ### Sender state machine (`SWPSender`) -/

/-- The sender's mutable state: `buffer` is the unacked map, `seq_no` the
next sequence number to assign, `credits` the counting-semaphore value
(initially `_SEND_WINDOW_SIZE = 5`), `next_ack` the lowest unacknowledged
sequence number. -/
structure SenderState where
  buffer : List (Nat × Payload)
  seq_no : Nat
  credits : Nat
  next_ack : Nat
deriving DecidableEq

/-- The state set up by `SWPSender.__init__`. -/
def initSender : SenderState := ⟨[], 0, 5, 0⟩

/-- `SWPSender._send` after the semaphore acquire succeeded (so the step
requires `1 ≤ credits`): record the payload under `seq_no`, keep the credit
taken by the acquire, increment `seq_no`. -/
def sendStep (s : SenderState) (d : Payload) : SenderState :=
  ⟨insertKey s.seq_no d s.buffer, s.seq_no + 1, s.credits - 1, s.next_ack⟩

/-- `SWPSender._retransmit seq_num`: if `seq_num` is still in the buffer,
rebuild the same DATA packet and arm a new timer — whose argument is the
current `self.seq_no`, exactly as the code passes `args=[self.seq_no]` on
line 101.  Returns the retransmitted packet together with the sequence
number the new timer is armed for; `none` when the entry is gone (then
nothing is transmitted and no timer is armed). -/
def retransmitStep (s : SenderState) (seq_num : Nat) : Option (SWPPacket × Nat) :=
  match lookupKey seq_num s.buffer with
  | some d => some (⟨SWPType.DATA, (seq_num : Int), d⟩, s.seq_no)
  | none => none

/-- The body of the ACK loop in `SWPSender._recv`: for each `seqno`,
`del self.buffer[seqno]` (which raises `KeyError` — crash flag `true` — when
the key is absent, before the release of that iteration) followed by
`self.send_semaphore.release()`. -/
def ackLoop : SenderState → List Nat → SenderState × Bool
  | s, [] => (s, false)
  | s, k :: rest =>
    if (lookupKey k s.buffer).isSome then
      ackLoop ⟨eraseKey k s.buffer, s.seq_no, s.credits + 1, s.next_ack⟩ rest
    else (s, true)

/-- `SWPSender._recv` handling of one ACK packet carrying sequence number
`a`: loop over `range(self.next_ack, a + 1)`, then (only if no `KeyError`
was raised) unconditionally set `next_ack = a + 1`. -/
def ackStep (s : SenderState) (a : Nat) : SenderState × Bool :=
  match ackLoop s (List.range' s.next_ack (a + 1 - s.next_ack)) with
  | (s1, true) => (s1, true)
  | (s1, false) => (⟨s1.buffer, s1.seq_no, s1.credits, a + 1⟩, false)

/-- Sender states reachable from the initial state by any interleaving of
completed `_send` steps (a completed step implies the semaphore acquire
succeeded, i.e. `1 ≤ credits`) and ACK-handling steps. -/
inductive SenderReachable : SenderState → Prop
  | init : SenderReachable initSender
  | send (s : SenderState) (d : Payload) :
      SenderReachable s → 1 ≤ s.credits → SenderReachable (sendStep s d)
  | ack (s : SenderState) (a : Nat) :
      SenderReachable s → SenderReachable (ackStep s a).1

/-- The sender invariant: buffer keys are distinct and below `seq_no`, and
window accounting `|buffer| + credits = 5` holds. -/
def SenderInv (s : SenderState) : Prop :=
  (s.buffer.map Prod.fst).Nodup ∧
  (∀ k ∈ s.buffer.map Prod.fst, k < s.seq_no) ∧
  s.buffer.length + s.credits = 5

theorem sendStep_inv {s : SenderState} (d : Payload) (hc : 1 ≤ s.credits)
    (h : SenderInv s) : SenderInv (sendStep s d) := by
  obtain ⟨h1, h2, h3⟩ := h
  have hnm : s.seq_no ∉ s.buffer.map Prod.fst :=
    fun hmem => absurd (h2 _ hmem) (lt_irrefl _)
  have he : eraseKey s.seq_no s.buffer = s.buffer := eraseKey_of_not_mem hnm
  refine ⟨?_, ?_, ?_⟩
  · show ((insertKey s.seq_no d s.buffer).map Prod.fst).Nodup
    unfold insertKey
    rw [he]
    exact List.nodup_cons.mpr ⟨hnm, h1⟩
  · intro k hk
    simp only [sendStep] at hk ⊢
    unfold insertKey at hk
    rw [he] at hk
    simp only [List.map_cons, List.mem_cons] at hk
    rcases hk with rfl | hk
    · exact Nat.lt_succ_self _
    · exact Nat.lt_succ_of_lt (h2 _ hk)
  · show (insertKey s.seq_no d s.buffer).length + (s.credits - 1) = 5
    unfold insertKey
    rw [he]
    simp only [List.length_cons]
    omega

theorem ackLoop_inv : ∀ (ks : List Nat) (s : SenderState),
    SenderInv s → SenderInv (ackLoop s ks).1 := by
  intro ks
  induction ks with
  | nil => intro s h; exact h
  | cons k rest ih =>
    intro s h
    obtain ⟨h1, h2, h3⟩ := h
    unfold ackLoop
    by_cases hl : (lookupKey k s.buffer).isSome
    · rw [if_pos hl]
      apply ih
      obtain ⟨v, hv⟩ := Option.isSome_iff_exists.mp hl
      have hsub : List.Sublist ((eraseKey k s.buffer).map Prod.fst)
          (s.buffer.map Prod.fst) := (eraseKey_sublist k s.buffer).map _
      refine ⟨h1.sublist hsub, ?_, ?_⟩
      · intro k' hk'
        exact h2 _ (hsub.subset hk')
      · have := eraseKey_length_nodup h1 hv
        show (eraseKey k s.buffer).length + (s.credits + 1) = 5
        omega
    · rw [if_neg hl]
      exact ⟨h1, h2, h3⟩

theorem ackStep_inv {s : SenderState} (a : Nat) (h : SenderInv s) :
    SenderInv (ackStep s a).1 := by
  unfold ackStep
  have hloop := ackLoop_inv (List.range' s.next_ack (a + 1 - s.next_ack)) s h
  cases hr : ackLoop s (List.range' s.next_ack (a + 1 - s.next_ack)) with
  | mk s1 crashed =>
    rw [hr] at hloop
    cases crashed
    · exact hloop
    · exact hloop

theorem senderInv_of_reachable {s : SenderState} (h : SenderReachable s) :
    SenderInv s := by
  induction h with
  | init => exact ⟨List.nodup_nil, by simp [initSender], rfl⟩
  | send s d _ hc ih => exact sendStep_inv d hc ih
  | ack s a _ ih => exact ackStep_inv a ih

/-! ### Receiver state machine (`SWPReceiver`) -/

/-- The receiver's mutable state: `buffer` is the out-of-order reassembly
map, `next_seq` the next expected sequence number, `queue` the FIFO of
payloads handed to the application (`self._ready_data`). -/
structure RecvState where
  buffer : List (Nat × Payload)
  next_seq : Nat
  queue : List Payload
deriving DecidableEq

/-- The state set up by `SWPReceiver.__init__`. -/
def initRecv : RecvState := ⟨[], 0, []⟩

/-- The drain loop of `SWPReceiver._recv`, with explicit fuel (each
successful iteration removes the key `next_seq` from the buffer, so
`buffer.length` fuel always suffices, as `drainFuel_stable` proves):
while `next_seq` is in the buffer, move its payload to the queue, delete it,
and increment `next_seq`. -/
def drainFuel : Nat → RecvState → RecvState
  | 0, st => st
  | n + 1, st =>
    match lookupKey st.next_seq st.buffer with
    | none => st
    | some d =>
      drainFuel n ⟨eraseKey st.next_seq st.buffer, st.next_seq + 1, st.queue ++ [d]⟩

/-- The drain loop run to completion. -/
def drain (st : RecvState) : RecvState := drainFuel st.buffer.length st

theorem drainFuel_zero (st : RecvState) : drainFuel 0 st = st := rfl

theorem drainFuel_succ_none {st : RecvState} (n : Nat)
    (h : lookupKey st.next_seq st.buffer = none) : drainFuel (n + 1) st = st := by
  simp only [drainFuel, h]

theorem drainFuel_succ_some {st : RecvState} {d : Payload} (n : Nat)
    (h : lookupKey st.next_seq st.buffer = some d) :
    drainFuel (n + 1) st =
      drainFuel n ⟨eraseKey st.next_seq st.buffer, st.next_seq + 1, st.queue ++ [d]⟩ := by
  simp only [drainFuel, h]

theorem drainFuel_of_none {st : RecvState}
    (h : lookupKey st.next_seq st.buffer = none) :
    ∀ n, drainFuel n st = st := by
  intro n
  cases n with
  | zero => rfl
  | succ n => exact drainFuel_succ_none n h

/-- Any fuel of at least `buffer.length` computes the same result: the fuel
is an artifact, `drain` is the `while` loop of the source. -/
theorem drainFuel_stable :
    ∀ (n m : Nat) (st : RecvState), st.buffer.length ≤ n →
      st.buffer.length ≤ m → drainFuel n st = drainFuel m st := by
  intro n
  induction n with
  | zero =>
    intro m st hn _
    have hb : st.buffer = [] := List.length_eq_zero.mp (Nat.le_zero.mp hn)
    have hl : lookupKey st.next_seq st.buffer = none := by rw [hb]; rfl
    rw [drainFuel_zero, drainFuel_of_none hl]
  | succ n ih =>
    intro m st hn hm
    cases hl : lookupKey st.next_seq st.buffer with
    | none => rw [drainFuel_of_none hl, drainFuel_of_none hl]
    | some d =>
      have hpos : 0 < st.buffer.length := lookupKey_some_pos hl
      have hlt : (eraseKey st.next_seq st.buffer).length < st.buffer.length :=
        eraseKey_length_lt hl
      cases m with
      | zero => omega
      | succ m =>
        rw [drainFuel_succ_some n hl, drainFuel_succ_some m hl]
        exact ih m _ (by simpa using by omega) (by simpa using by omega)

theorem drain_of_lookup_none {st : RecvState}
    (h : lookupKey st.next_seq st.buffer = none) : drain st = st :=
  drainFuel_of_none h _

theorem drain_of_lookup_some {st : RecvState} {d : Payload}
    (h : lookupKey st.next_seq st.buffer = some d) :
    drain st =
      drain ⟨eraseKey st.next_seq st.buffer, st.next_seq + 1, st.queue ++ [d]⟩ := by
  have hpos : 0 < st.buffer.length := lookupKey_some_pos h
  have hlt : (eraseKey st.next_seq st.buffer).length < st.buffer.length :=
    eraseKey_length_lt h
  show drainFuel st.buffer.length st = _
  cases hb : st.buffer.length with
  | zero => omega
  | succ n =>
    rw [drainFuel_succ_some n h]
    exact drainFuel_stable n _ _ (by simp; omega) (by simp)

/-- After the drain loop, `next_seq` is never a key of the buffer (the loop
condition has just failed). -/
theorem drain_lookup_none_aux :
    ∀ (n : Nat) (st : RecvState), st.buffer.length ≤ n →
      lookupKey (drain st).next_seq (drain st).buffer = none := by
  intro n
  induction n with
  | zero =>
    intro st hn
    have hb : st.buffer = [] := List.length_eq_zero.mp (Nat.le_zero.mp hn)
    have hl : lookupKey st.next_seq st.buffer = none := by rw [hb]; rfl
    rw [drain_of_lookup_none hl]
    exact hl
  | succ n ih =>
    intro st hn
    cases hl : lookupKey st.next_seq st.buffer with
    | none => rw [drain_of_lookup_none hl]; exact hl
    | some d =>
      rw [drain_of_lookup_some hl]
      refine ih _ ?_
      have := eraseKey_length_lt hl
      simp
      omega

theorem drain_lookup_none (st : RecvState) :
    lookupKey (drain st).next_seq (drain st).buffer = none :=
  drain_lookup_none_aux st.buffer.length st le_rfl

/-- `SWPReceiver._recv` handling of one inbound DATA segment
`(seq_num, data)`: store it in the buffer, run the drain loop, then encode
an ACK packet carrying `next_seq - 1`.  The second component is the encoded
ACK actually transmitted; it is `none` exactly when `to_bytes` raises
`struct.error` (sequence number `-1`, i.e. `next_seq = 0`), which kills the
receive thread. -/
def recvStepFull (st : RecvState) (seg : Nat × Payload) :
    RecvState × Option (List Nat) :=
  let st1 := drain ⟨insertKey seg.1 seg.2 st.buffer, st.next_seq, st.queue⟩
  (st1, SWPPacket.to_bytes ⟨SWPType.ACK, (st1.next_seq : Int) - 1, []⟩)

/-- The receive thread handling a whole arrival sequence of DATA segments:
each segment is processed by `recvStepFull`; if the ACK encoding raises, the
thread dies (`true` flag) and the remaining segments are never handled. -/
def processSegs : RecvState → List (Nat × Payload) → RecvState × Bool
  | st, [] => (st, false)
  | st, seg :: rest =>
    if ((recvStepFull st seg).2).isNone then ((recvStepFull st seg).1, true)
    else processSegs (recvStepFull st seg).1 rest

/-! ### Receiver invariant -/

theorem list_get?_append_left {α : Type} :
    ∀ (l l' : List α) (i : Nat), i < l.length → (l ++ l').get? i = l.get? i := by
  intro l
  induction l with
  | nil => intro l' i hi; simp at hi
  | cons a rest ih =>
    intro l' i hi
    cases i with
    | zero => rfl
    | succ i =>
      simp only [List.cons_append, List.get?]
      exact ih l' i (by simpa using hi)

theorem list_get?_append_last {α : Type} (d : α) :
    ∀ (l : List α), (l ++ [d]).get? l.length = some d := by
  intro l
  induction l with
  | nil => rfl
  | cons a rest ih => simp [ih]

theorem list_get?_lt {α : Type} :
    ∀ {l : List α} {i : Nat} {x : α}, l.get? i = some x → i < l.length := by
  intro l
  induction l with
  | nil => intro i x h; simp [List.get?] at h
  | cons a rest ih =>
    intro i x h
    cases i with
    | zero => simp
    | succ i =>
      simp only [List.get?] at h
      simpa using ih h

/-- The receiver-state properties preserved through arrival handling,
relative to the multiset `S` of DATA segments handled so far: every
buffered entry is one of the handled segments; the queue length equals
`next_seq`; and the queue entry at position `i` is a payload that arrived
carrying sequence number `i` — so the queue is in strictly ascending
original sequence order with no gaps and no duplicates. -/
def RecvInv (S : List (Nat × Payload)) (st : RecvState) : Prop :=
  (∀ p ∈ st.buffer, p ∈ S) ∧
  st.queue.length = st.next_seq ∧
  (∀ i q, st.queue.get? i = some q → (i, q) ∈ S)

theorem recvInv_mono {S T : List (Nat × Payload)} {st : RecvState}
    (hST : ∀ x ∈ S, x ∈ T) (h : RecvInv S st) : RecvInv T st := by
  obtain ⟨h1, h2, h3⟩ := h
  exact ⟨fun p hp => hST _ (h1 p hp), h2, fun i q hq => hST _ (h3 i q hq)⟩

theorem drain_inv_aux {S : List (Nat × Payload)} :
    ∀ (n : Nat) (st : RecvState), st.buffer.length ≤ n →
      RecvInv S st → RecvInv S (drain st) := by
  intro n
  induction n with
  | zero =>
    intro st hn hI
    have hb : st.buffer = [] := List.length_eq_zero.mp (Nat.le_zero.mp hn)
    have hl : lookupKey st.next_seq st.buffer = none := by rw [hb]; rfl
    rw [drain_of_lookup_none hl]
    exact hI
  | succ n ih =>
    intro st hn hI
    obtain ⟨h1, h2, h3⟩ := hI
    cases hl : lookupKey st.next_seq st.buffer with
    | none => rw [drain_of_lookup_none hl]; exact ⟨h1, h2, h3⟩
    | some d =>
      rw [drain_of_lookup_some hl]
      refine ih _ ?_ ⟨?_, ?_, ?_⟩
      · have := eraseKey_length_lt hl
        simp
        omega
      · intro p hp
        exact h1 p (mem_of_mem_eraseKey hp)
      · simp [h2]
      · intro i q hq
        by_cases hi : i < st.queue.length
        · rw [list_get?_append_left _ _ _ hi] at hq
          exact h3 i q hq
        · have hlen : i < st.queue.length + 1 := by
            have := list_get?_lt hq
            simpa using this
          have hieq : i = st.queue.length := by omega
          subst hieq
          rw [list_get?_append_last] at hq
          have hdq := Option.some.inj hq
          rw [h2, ← hdq]
          exact h1 _ (lookupKey_mem hl)

theorem drain_inv {S : List (Nat × Payload)} {st : RecvState}
    (hI : RecvInv S st) : RecvInv S (drain st) :=
  drain_inv_aux st.buffer.length st le_rfl hI

theorem recvStep_inv {S : List (Nat × Payload)} {st : RecvState}
    (seg : Nat × Payload) (hI : RecvInv S st) :
    RecvInv (seg :: S) (recvStepFull st seg).1 := by
  show RecvInv (seg :: S) (drain ⟨insertKey seg.1 seg.2 st.buffer, st.next_seq, st.queue⟩)
  apply drain_inv
  obtain ⟨h1, h2, h3⟩ := hI
  refine ⟨?_, h2, fun i q hq => List.mem_cons_of_mem _ (h3 i q hq)⟩
  intro p hp
  unfold insertKey at hp
  rcases List.mem_cons.mp hp with rfl | hp'
  · exact List.mem_cons_self _ _
  · exact List.mem_cons_of_mem _ (h1 p (mem_of_mem_eraseKey hp'))

theorem processSegs_inv :
    ∀ (segs : List (Nat × Payload)) (st : RecvState)
      (S T : List (Nat × Payload)), (∀ x ∈ S, x ∈ T) → (∀ x ∈ segs, x ∈ T) →
      RecvInv S st → RecvInv T (processSegs st segs).1 := by
  intro segs
  induction segs with
  | nil => intro st S T hST _ hI; exact recvInv_mono hST hI
  | cons seg rest ih =>
    intro st S T hST hsegs hI
    have hstep : RecvInv (seg :: S) (recvStepFull st seg).1 := recvStep_inv seg hI
    have hsub : ∀ x ∈ seg :: S, x ∈ T := by
      intro x hx
      rcases List.mem_cons.mp hx with rfl | hx'
      · exact hsegs _ (List.mem_cons_self _ _)
      · exact hST _ hx'
    unfold processSegs
    by_cases hc : ((recvStepFull st seg).2).isNone
    · rw [if_pos hc]
      exact recvInv_mono hsub hstep
    · rw [if_neg hc]
      exact ih _ (seg :: S) T hsub (fun x hx => hsegs _ (List.mem_cons_of_mem _ hx)) hstep

theorem processSegs_drained :
    ∀ (segs : List (Nat × Payload)) (st : RecvState),
      lookupKey st.next_seq st.buffer = none →
      lookupKey (processSegs st segs).1.next_seq (processSegs st segs).1.buffer = none := by
  intro segs
  induction segs with
  | nil => intro st h; exact h
  | cons seg rest ih =>
    intro st h
    have hd : lookupKey (recvStepFull st seg).1.next_seq
        (recvStepFull st seg).1.buffer = none := drain_lookup_none _
    unfold processSegs
    by_cases hc : ((recvStepFull st seg).2).isNone
    · rw [if_pos hc]; exact hd
    · rw [if_neg hc]; exact ih _ hd

/-! ### Claims -/

/-- Claim C1: the claim states that a retransmission-timer callback for a
sequence number `seq` still in the unacked buffer retransmits the DATA
segment unchanged and re-arms a timer for that SAME `seq`.  The code
(`swp.py` line 101) instead re-arms the timer with `args=[self.seq_no]`, the
sender's CURRENT next sequence number.  Failing input: the reachable state
with buffer `{2 ↦ [9]}`, `seq_no = 6` is not needed — already at
`seq_no = 3`, `next_ack = 2` (reached by sending 0,1,2 and processing an ACK
for 1), the callback for `seq = 2` retransmits the DATA segment for 2 but
arms the new timer for sequence number 3, not 2. -/
theorem swp_C1_retransmit_rearm_bug :
    retransmitStep ⟨[(2, [9])], 3, 4, 2⟩ 2 = some (⟨SWPType.DATA, 2, [9]⟩, 3) ∧
      retransmitStep ⟨[(2, [9])], 3, 4, 2⟩ 2 ≠ some (⟨SWPType.DATA, 2, [9]⟩, 2) := by
  decide

/-- Claim C2: the claim states that a stale ACK (with `next_ack` already past
`a + 1`) leaves buffer, credits and `next_ack` all unchanged.  The code
(`swp.py` line 125) unconditionally executes `self.next_ack = packet.seq_num
+ 1`: at the state with empty buffer, 5 credits and `next_ack = 5`, an ACK
carrying 3 indeed leaves buffer and credits unchanged but REGRESSES
`next_ack` from 5 to 4. -/
theorem swp_C2_stale_ack_bug :
    ackStep ⟨[], 5, 5, 5⟩ 3 = (⟨[], 5, 5, 4⟩, false) := by
  decide

/-- Claim C3: the claim states that the ACK handler checks membership before
removal, so an absent sequence number in `[next_ack, a]` releases no credit
and the handler still completes with `next_ack = a + 1`.  The code
(`swp.py` line 119) executes `del self.buffer[seqno]` with no membership
check: at the state with buffer `{5 ↦ [9]}`, `next_ack = 4` (reachable via
the stale-ACK regression of C2), an ACK carrying 5 raises `KeyError` on the
absent key 4 — the crash flag is `true`, nothing is removed, no credit is
released, and `next_ack` is never set to 6. -/
theorem swp_C3_keyerror_bug :
    ackStep ⟨[(5, [9])], 6, 4, 4⟩ 5 = (⟨[(5, [9])], 6, 4, 4⟩, true) := by
  decide

/-- Claim C4, counterexample: handling the same DATA segment `(0, [7])`
twice — the second arrival a duplicate of an already-delivered sequence
number — leaves key 0 in the pending buffer while `nextExpected = 1`, so the
claimed invariant "no key of `pending` is ≤ `nextExpected`" is false. -/
theorem swp_C4_counterexample :
    lookupKey 0 (processSegs initRecv [(0, [7]), (0, [7])]).1.buffer = some [7] ∧
      (processSegs initRecv [(0, [7]), (0, [7])]).1.next_seq = 1 := by
  decide

/-- Claim C4 (amended): after the receiver handles any sequence of inbound
DATA segments, `nextExpected` itself is never a key of the pending buffer
(keys strictly below `nextExpected` may persist when a duplicate of an
already-delivered sequence number arrives), and the delivery queue holds, at
each position `i < nextExpected`, a payload that arrived carrying sequence
number `i` — strictly ascending original sequence order, no gaps, no
duplicates. -/
theorem swp_C4_amended (segs : List (Nat × Payload)) :
    lookupKey (processSegs initRecv segs).1.next_seq
        (processSegs initRecv segs).1.buffer = none ∧
      (processSegs initRecv segs).1.queue.length =
        (processSegs initRecv segs).1.next_seq ∧
      ∀ i q, (processSegs initRecv segs).1.queue.get? i = some q → (i, q) ∈ segs := by
  have hinv : RecvInv segs (processSegs initRecv segs).1 := by
    apply processSegs_inv segs initRecv [] segs
    · intro x hx; cases hx
    · intro x hx; exact hx
    · refine ⟨fun p hp => absurd hp (List.not_mem_nil p), rfl, ?_⟩
      intro i q hq
      cases i <;> cases hq
  exact ⟨processSegs_drained segs initRecv rfl, hinv.2.1, hinv.2.2⟩

/-- Claim C4, witness for the amended theorem at the concrete arrival
sequence `[(0, [1])]`. -/
theorem swp_C4_witness :
    (processSegs initRecv [(0, [1])]).1.queue.get? 0 = some [1] ∧
      ((0 : Nat), ([1] : Payload)) ∈ [((0 : Nat), ([1] : Payload))] :=
  ⟨by decide, (swp_C4_amended [((0 : Nat), ([1] : Payload))]).2.2 0 [1] (by decide)⟩

/-- Claim C5, counterexample: the claim states every inbound DATA segment
elicits exactly one ACK carrying `nextExpected - 1`, "in particular when
`nextExpected` is still 0".  Handling the out-of-order segment `(1, [5])`
from the initial state leaves `nextExpected = 0`, and encoding the ACK with
sequence number `-1` raises `struct.error` (`to_bytes` is `none`): no ACK is
transmitted and the receive thread dies. -/
theorem swp_C5_counterexample :
    (recvStepFull initRecv (1, [5])).2 = none ∧
      (recvStepFull initRecv (1, [5])).1.next_seq = 0 := by
  decide

/-- Claim C5 (amended): for every inbound DATA segment after whose drain loop
`nextExpected ≥ 1` (and `nextExpected ≤ 2^32`, the wire-format bound), the
receiver transmits exactly one ACK, and the transmitted bytes decode to an
ACK segment carrying sequence number `nextExpected - 1`; when `nextExpected`
is still 0, the encode raises and no ACK is transmitted (see the
counterexample). -/
theorem swp_C5_amended (st : RecvState) (seg : Nat × Payload)
    (h1 : 1 ≤ (recvStepFull st seg).1.next_seq)
    (h2 : (recvStepFull st seg).1.next_seq ≤ 4294967296) :
    ∃ bs, (recvStepFull st seg).2 = some bs ∧
      SWPPacket.from_bytes bs =
        some ⟨SWPType.ACK, ((recvStepFull st seg).1.next_seq : Int) - 1, []⟩ := by
  have hsnd : (recvStepFull st seg).2 =
      SWPPacket.to_bytes
        ⟨SWPType.ACK, ((recvStepFull st seg).1.next_seq : Int) - 1, []⟩ := rfl
  have h0 : (0 : Int) ≤ ((recvStepFull st seg).1.next_seq : Int) - 1 := by omega
  have hlt : ((recvStepFull st seg).1.next_seq : Int) - 1 < 4294967296 := by omega
  have hrt := roundtrip_core
    ⟨SWPType.ACK, ((recvStepFull st seg).1.next_seq : Int) - 1, []⟩ h0 hlt
  have hb := @to_bytes_some SWPType.ACK
    (((recvStepFull st seg).1.next_seq : Int) - 1) ([] : Payload) h0 hlt
  rw [hb] at hrt
  refine ⟨_, hsnd.trans hb, ?_⟩
  simpa using hrt

/-- Claim C5, witness for the amended theorem: the in-order segment
`(0, [3])` from the initial state advances `nextExpected` to 1 and the
transmitted ACK decodes to sequence number 0. -/
theorem swp_C5_witness :
    1 ≤ (recvStepFull initRecv (0, [3])).1.next_seq ∧
      ∃ bs, (recvStepFull initRecv (0, [3])).2 = some bs ∧
        SWPPacket.from_bytes bs =
          some ⟨SWPType.ACK, ((recvStepFull initRecv (0, [3])).1.next_seq : Int) - 1, []⟩ :=
  ⟨by decide, swp_C5_amended initRecv (0, [3]) (by decide) (by decide)⟩

/-- Claim C6: for every valid segment (kind DATA or ACK, sequence number in
the unsigned 32-bit range, payload at most 1400 bytes and empty for ACK),
decoding the encoding yields the segment back unchanged. -/
theorem swp_C6_roundtrip (p : SWPPacket) (h0 : 0 ≤ p.seq_num)
    (h1 : p.seq_num < 4294967296) (_h2 : p.data.length ≤ 1400)
    (_h3 : p.type = SWPType.ACK → p.data = []) :
    (SWPPacket.to_bytes p).bind SWPPacket.from_bytes = some p :=
  roundtrip_core p h0 h1

/-- Claim C6, witness at the DATA segment with sequence number 7 and payload
`[1, 2, 3]`. -/
theorem swp_C6_witness :
    (SWPPacket.to_bytes ⟨SWPType.DATA, 7, [1, 2, 3]⟩).bind SWPPacket.from_bytes =
      some ⟨SWPType.DATA, 7, [1, 2, 3]⟩ :=
  swp_C6_roundtrip ⟨SWPType.DATA, 7, [1, 2, 3]⟩ (by decide) (by decide) (by decide)
    (fun h => SWPType.noConfusion h)

/-- Claim C7: decoding fails exactly when the input is shorter than the
5-byte header or its first byte is not a recognised kind tag (68 = `'D'`,
65 = `'A'`); with a valid header it succeeds whatever the 4-byte
sequence-number field holds. -/
theorem swp_C7_decode_fail_iff (raw : List Nat) :
    SWPPacket.from_bytes raw = none ↔
      raw.length < 5 ∨ (raw.head? ≠ some 68 ∧ raw.head? ≠ some 65) := by
  rcases raw with _ | ⟨t, _ | ⟨b0, _ | ⟨b1, _ | ⟨b2, _ | ⟨b3, rest⟩⟩⟩⟩⟩
  · simp [SWPPacket.from_bytes]
  · simp [SWPPacket.from_bytes]
  · simp [SWPPacket.from_bytes]
  · simp [SWPPacket.from_bytes]
  · simp [SWPPacket.from_bytes]
  · by_cases ht68 : t = 68
    · simp [SWPPacket.from_bytes, SWPType.ofTag, ht68]
    · by_cases ht65 : t = 65
      · simp [SWPPacket.from_bytes, SWPType.ofTag, ht68, ht65]
      · simp [SWPPacket.from_bytes, SWPType.ofTag, ht68, ht65]

/-- Claim C8: the claim states that DATA segments 0..4 arriving in the order
2,0,1,4,3 are delivered by `recv()` in order 0,1,2,3,4.  In the code the
very first (out-of-order) arrival leaves `nextExpected = 0`, so encoding the
cumulative ACK with sequence number `-1` raises `struct.error`, the receive
thread dies (crash flag `true`) before the remaining segments are ever
handled, and the delivery queue stays empty: `recv()` never returns any of
the five payloads. -/
theorem swp_C8_reorder_crash_bug :
    processSegs initRecv [(2, [2]), (0, [0]), (1, [1]), (4, [4]), (3, [3])] =
      (⟨[(2, [2])], 0, []⟩, true) := by
  decide

/-- Claim C9: in every sender state reachable by any interleaving of
completed transmit steps and ACK-handling steps from the initial state, the
number of unacked buffer entries plus the remaining window credits equals
the window capacity 5. -/
theorem swp_C9_window_invariant (s : SenderState) (h : SenderReachable s) :
    s.buffer.length + s.credits = 5 :=
  (senderInv_of_reachable h).2.2

/-- Claim C9, witness: the invariant after one completed transmit step from
the initial state. -/
theorem swp_C9_witness :
    (sendStep initSender [1]).buffer.length + (sendStep initSender [1]).credits = 5 :=
  swp_C9_window_invariant _
    (SenderReachable.send initSender [1] SenderReachable.init (by decide))

/-- Claim C10: encoding is partial on sequence numbers — `to_bytes` raises
(`none`) for every segment whose sequence number lies outside `[0, 2^32)`;
in particular the ACK segment with sequence number `-1` that the receiver
builds as `nextExpected - 1` before any in-order data has arrived cannot be
encoded. -/
theorem swp_C10_encode_partial (p : SWPPacket)
    (h : p.seq_num < 0 ∨ 4294967296 ≤ p.seq_num) :
    SWPPacket.to_bytes p = none := by
  unfold SWPPacket.to_bytes
  rw [if_neg (fun hc => by rcases h with h | h <;> omega)]

/-- Claim C10, witness at the ACK segment with sequence number `-1`. -/
theorem swp_C10_witness :
    ((-1 : Int) < 0 ∨ (4294967296 : Int) ≤ -1) ∧
      SWPPacket.to_bytes ⟨SWPType.ACK, -1, []⟩ = none :=
  ⟨Or.inl (by decide), swp_C10_encode_partial ⟨SWPType.ACK, -1, []⟩ (Or.inl (by decide))⟩
